import Mathlib

/-!
Verification of the `pelican-frontmark` plugin (`frontmark/reader.py`).

The embedding is shallow: strings are `List Char`, and the external
collaborators of the reader are parameters:

* the Markdown renderer (`self._md.convert`) is a parameter
  `render : List Char → List Char`, one per `read` call, matching the fresh
  `Markdown(**settings)` instance built per call;
* the textual YAML parser (text to node tree) is a parameter
  `yamlParse : List Char → Except String (Option YamlNode)`; `.error` models a
  `yaml.YAMLError` raised by `yaml.load`, `.ok none` models an empty document
  (where `yaml.load` returns `None`);
* pelican's `BaseReader.process_metadata` hook is a parameter
  `process_metadata : List Char → Value → Value`;
* the `frontmark_yaml_register` signal's contributed `(tag, handler)` pairs are
  a parameter `externals : List (String × Handler)` (the pairs are modelled
  already well-formed; the source skips, with a warning, any pair whose length
  is not 2).

Exceptions escaping a function are modelled with `Except`; Python `str.strip`
and `str.lower` are modelled on ASCII (`str.lower` only affects `A`-`Z` for
the field names that occur here).
-/

namespace Frontmark

/-! ### Python string primitives -/

/-- Characters treated as whitespace by Python `str.strip()` (ASCII part). -/
def isPySpace (c : Char) : Bool :=
  c = ' ' || c = '\t' || c = '\n' || c = '\r' || c = '\x0b' || c = '\x0c'

/-- Python `str.strip()`: remove leading and trailing whitespace. -/
def pyStrip (s : List Char) : List Char :=
  ((s.dropWhile isPySpace).reverse.dropWhile isPySpace).reverse

/-- Python `str.lower()` on one character (ASCII `A`-`Z`). -/
def pyLowerChar (c : Char) : Char :=
  if 65 ≤ c.toNat ∧ c.toNat ≤ 90 then Char.ofNat (c.toNat + 32) else c

/-- Python `str.lower()`. -/
def pyLower (s : List Char) : List Char := s.map pyLowerChar

/-- Python `str.startswith(pre)`. -/
def pyStartsWith (pre s : List Char) : Bool := pre.isPrefixOf s

/-! ### Constants of `frontmark/reader.py` -/

/-- `DELIMITER = '---'`. -/
def DELIMITER : List Char := ['-', '-', '-']

/-- `STR_TAG = 'tag:yaml.org,2002:str'`. -/
def STR_TAG : String := "tag:yaml.org,2002:str"

/-- The mandatory extension appended by `FrontmarkReader.__init__`. -/
def META_EXTENSION : String := "markdown.extensions.meta"

/-! ### Values produced by YAML construction

`Value` models the Python values the loader can build: strings (all scalars
are kept as their text), lists, and (ordered) dicts.  Mapping keys are
modelled as plain strings, which is what every key occurring in frontmatter
metadata is (`_parse_metadata` calls `.lower()` on them). -/

inductive Value where
  | vstr (s : List Char)
  | vlist (vs : List Value)
  | vmap (pairs : List (List Char × Value))

mutual

def Value.beq : Value → Value → Bool
  | .vstr s, .vstr t => s == t
  | .vlist xs, .vlist ys => Value.beqList xs ys
  | .vmap xs, .vmap ys => Value.beqPairs xs ys
  | _, _ => false

def Value.beqList : List Value → List Value → Bool
  | [], [] => true
  | x :: xs, y :: ys => Value.beq x y && Value.beqList xs ys
  | _, _ => false

def Value.beqPairs : List (List Char × Value) → List (List Char × Value) → Bool
  | [], [] => true
  | (k, v) :: xs, (l, w) :: ys => k == l && Value.beq v w && Value.beqPairs xs ys
  | _, _ => false

end

mutual

theorem Value.eq_of_beq : ∀ {a b : Value}, Value.beq a b = true → a = b
  | .vstr s, .vstr t, h => by
    simp only [Value.beq, beq_iff_eq] at h; rw [h]
  | .vlist xs, .vlist ys, h => by
    simp only [Value.beq] at h; rw [Value.eqList_of_beqList h]
  | .vmap xs, .vmap ys, h => by
    simp only [Value.beq] at h; rw [Value.eqPairs_of_beqPairs h]
  | .vstr _, .vlist _, h => by simp [Value.beq] at h
  | .vstr _, .vmap _, h => by simp [Value.beq] at h
  | .vlist _, .vstr _, h => by simp [Value.beq] at h
  | .vlist _, .vmap _, h => by simp [Value.beq] at h
  | .vmap _, .vstr _, h => by simp [Value.beq] at h
  | .vmap _, .vlist _, h => by simp [Value.beq] at h

theorem Value.eqList_of_beqList : ∀ {xs ys : List Value}, Value.beqList xs ys = true → xs = ys
  | [], [], _ => rfl
  | x :: xs, y :: ys, h => by
    simp only [Value.beqList, Bool.and_eq_true] at h
    rw [Value.eq_of_beq h.1, Value.eqList_of_beqList h.2]
  | [], _ :: _, h => by simp [Value.beqList] at h
  | _ :: _, [], h => by simp [Value.beqList] at h

theorem Value.eqPairs_of_beqPairs :
    ∀ {xs ys : List (List Char × Value)}, Value.beqPairs xs ys = true → xs = ys
  | [], [], _ => rfl
  | (k, v) :: xs, (l, w) :: ys, h => by
    simp only [Value.beqPairs, Bool.and_eq_true, beq_iff_eq] at h
    rw [h.1.1, Value.eq_of_beq h.1.2, Value.eqPairs_of_beqPairs h.2]
  | [], _ :: _, h => by simp [Value.beqPairs] at h
  | _ :: _, [], h => by simp [Value.beqPairs] at h

end

mutual

theorem Value.beq_refl : ∀ (a : Value), Value.beq a a = true
  | .vstr _ => by simp [Value.beq]
  | .vlist xs => by simp [Value.beq, Value.beqList_refl xs]
  | .vmap xs => by simp [Value.beq, Value.beqPairs_refl xs]

theorem Value.beqList_refl : ∀ (xs : List Value), Value.beqList xs xs = true
  | [] => rfl
  | x :: xs => by simp [Value.beqList, Value.beq_refl x, Value.beqList_refl xs]

theorem Value.beqPairs_refl : ∀ (xs : List (List Char × Value)), Value.beqPairs xs xs = true
  | [] => rfl
  | (_, v) :: xs => by simp [Value.beqPairs, Value.beq_refl v, Value.beqPairs_refl xs]

end

instance : DecidableEq Value := fun a b =>
  if h : Value.beq a b = true then .isTrue (Value.eq_of_beq h)
  else .isFalse (fun he => h (he ▸ Value.beq_refl a))

instance : Inhabited Value := ⟨.vstr []⟩

/-- The string content of a value.  `_parse_metadata` passes the raw value of a
formatted field to `self._render`, which requires a string; the claims only
concern string-valued formatted fields, so non-strings (on which the source
would raise inside `markdown`) are mapped to a junk string here. -/
def valueStr : Value → List Char
  | .vstr s => s
  | _ => []

/-! ### YAML nodes and the constructor registry

`YamlNode` is the node tree delivered by the external YAML parser: every node
carries its resolved tag; scalars carry their style (`some '|'` for a literal
block-style scalar) and text.  Mapping keys are modelled as plain strings (see
`Value`). -/

inductive YamlNode where
  | scalar (tag : String) (style : Option Char) (value : List Char)
  | sequence (tag : String) (items : List YamlNode)
  | mapping (tag : String) (pairs : List (List Char × YamlNode))

/-- A constructor registered with `add_constructor`. -/
abbrev Handler := YamlNode → Value

/-- The per-call snapshot of registered `(tag, constructor)` pairs. -/
abbrev Registry := List (String × Handler)

/-- `Loader.add_constructor(tag, constructor)`: a later registration of the
same tag shadows an earlier one (dict assignment). -/
def addConstructor (reg : Registry) (tag : String) (h : Handler) : Registry :=
  reg ++ [(tag, h)]

/-- Constructor dispatch: the most recently registered handler for a tag. -/
def lookupConstructor (reg : Registry) (tag : String) : Option Handler :=
  (reg.reverse.find? (fun p => p.1 == tag)).map (fun p => p.2)

/-- `loader.construct_scalar(node)`: the scalar node's text.  PyYAML raises a
`ConstructorError` on non-scalar nodes; the repository's handlers are only
attached to scalar tags, and the claims only apply them to scalar nodes, so
that error branch is a junk value here. -/
def construct_scalar : YamlNode → List Char
  | .scalar _ _ v => v
  | _ => []

/-- `node.style` (only scalar nodes carry a style). -/
def nodeStyle : YamlNode → Option Char
  | .scalar _ style _ => style
  | _ => none

/-- Python `dict` / `collections.OrderedDict` item assignment `d[k] = v`:
replace the value in place if the key is present, else append. -/
def orderedDictInsert : List (List Char × Value) → List Char → Value →
    List (List Char × Value)
  | [], k, v => [(k, v)]
  | p :: m, k, v => if p.1 = k then (p.1, v) :: m else p :: orderedDictInsert m k v

/-- Lookup in an ordered dict (first entry with the key; keys are unique). -/
def odLookup : List (List Char × Value) → List Char → Option Value
  | [], _ => none
  | p :: m, k => if p.1 = k then some p.2 else odLookup m k

/-- `collections.OrderedDict(pairs)`: insert the pairs in encounter order; a
repeated key keeps its first position and takes the latest value. -/
def odFromPairs (pairs : List (List Char × Value)) : List (List Char × Value) :=
  pairs.foldl (fun m p => orderedDictInsert m p.1 p.2) []

/-- `FrontmarkReader.yaml_markdown_constructor`:
`return self._render(loader.construct_scalar(node)).strip()`. -/
def yaml_markdown_constructor (render : List Char → List Char) (node : YamlNode) : Value :=
  .vstr (pyStrip (render (construct_scalar node)))

/-- `FrontmarkReader.yaml_multiline_as_markdown_constructor`:
`return self._render(value).strip() if node.style == '|' else value`. -/
def yaml_multiline_as_markdown_constructor (render : List Char → List Char)
    (node : YamlNode) : Value :=
  let value := construct_scalar node
  if nodeStyle node = some '|' then .vstr (pyStrip (render value)) else .vstr value

/-- `FrontmarkReader.loader_class`: a fresh `FrontmarkLoader` registry built
per call — the two built-in defaults (`!md` always; the string tag only when
`FRONTMARK_PARSE_LITERAL`, default `True`, is enabled) followed by the
externally contributed pairs, in order. -/
def loader_class (render : List Char → List Char) (parseLiteral : Bool)
    (externals : Registry) : Registry :=
  let reg := addConstructor [] "!md" (yaml_markdown_constructor render)
  let reg :=
    if parseLiteral then
      addConstructor reg STR_TAG (yaml_multiline_as_markdown_constructor render)
    else reg
  externals.foldl (fun r p => addConstructor r p.1 p.2) reg

mutual

/-- Construction of a Python value from a node: a registered constructor for
the node's tag wins; otherwise scalars keep their text (the stock PyYAML
scalar constructors), sequences become lists, and mappings go through
`FrontmarkLoader.construct_mapping`, i.e.
`collections.OrderedDict(self.construct_pairs(node))`. -/
def constructNode (reg : Registry) : YamlNode → Value
  | .scalar tag style v =>
    match lookupConstructor reg tag with
    | some h => h (.scalar tag style v)
    | none => .vstr v
  | .sequence tag items =>
    match lookupConstructor reg tag with
    | some h => h (.sequence tag items)
    | none => .vlist (constructSeq reg items)
  | .mapping tag pairs =>
    match lookupConstructor reg tag with
    | some h => h (.mapping tag pairs)
    | none => .vmap (odFromPairs (constructPairs reg pairs))

def constructSeq (reg : Registry) : List YamlNode → List Value
  | [] => []
  | n :: ns => constructNode reg n :: constructSeq reg ns

def constructPairs (reg : Registry) :
    List (List Char × YamlNode) → List (List Char × Value)
  | [] => []
  | (k, n) :: ps => (k, constructNode reg n) :: constructPairs reg ps

end

/-- `yaml.load(fm, Loader=self.loader_class)`: the external textual parser
produces the node tree (or fails, or yields `None` on an empty document); the
loader's constructors then build the value. -/
def yaml_load (yamlParse : List Char → Except String (Option YamlNode))
    (reg : Registry) (fm : List Char) : Except String (Option Value) :=
  (yamlParse fm).map (fun root => root.map (constructNode reg))

/-! ### The document splitter

`BOUNDARY = re.compile(r'^---$', re.MULTILINE)` and
`BOUNDARY.split(text, 2)`.  A match is an occurrence of `---` as a whole line:
three dashes starting at the string start or just after a newline and followed
by a newline or the string end.  `boundarySplitAux` scans the text left to
right exactly as `re.split` does: `maxsplit` counts the splits still allowed,
`lineStart` records whether the current position follows a newline (or is the
start), and `acc` holds the current segment reversed. -/

/-- A `^---$` match starts at the head of `s`. -/
def boundaryMatch (s : List Char) : Prop :=
  s.take 3 = DELIMITER ∧ (s.drop 3 = [] ∨ (s.drop 3).head? = some '\n')

instance (s : List Char) : Decidable (boundaryMatch s) := by
  unfold boundaryMatch; infer_instance

def boundarySplitAux (maxsplit : Nat) (lineStart : Bool) (acc : List Char) :
    List Char → List (List Char)
  | [] => [acc.reverse]
  | c :: rest =>
    if maxsplit ≠ 0 ∧ lineStart = true ∧ boundaryMatch (c :: rest) then
      match rest with
      | _ :: _ :: rest2 => acc.reverse :: boundarySplitAux (maxsplit - 1) false [] rest2
      | _ => [acc.reverse, []]
    else
      boundarySplitAux maxsplit (c == '\n') (c :: acc) rest

/-- `BOUNDARY.split(text, maxsplit)`. -/
def BOUNDARY_split (text : List Char) (maxsplit : Nat) : List (List Char) :=
  boundarySplitAux maxsplit true [] text

/-- The number of `^---$` matches in the text (same scan, no split limit). -/
def countBoundary (lineStart : Bool) : List Char → Nat
  | [] => 0
  | c :: rest =>
    if lineStart = true ∧ boundaryMatch (c :: rest) then
      match rest with
      | _ :: _ :: rest2 => 1 + countBoundary false rest2
      | _ => 1
    else
      countBoundary (c == '\n') rest

/-- Joining the segments back with the delimiter recovers the original text
(used to state that later delimiter lines stay verbatim inside the body). -/
def joinDelim : List (List Char) → List Char
  | [] => []
  | [x] => x
  | x :: xs => x ++ DELIMITER ++ joinDelim xs

/-! ### `_parse`, `_parse_metadata`, `read` -/

/-- `metadata if isinstance(metadata, dict) else {}` applied to the loaded
root value (`None` for an empty document is not a dict). -/
def metadataOf : Option Value → List (List Char × Value)
  | some (.vmap pairs) => pairs
  | _ => []

/-- `FrontmarkReader._parse`: strip the text; without a leading delimiter
return `({}, text)`; split on `^---$` with maxsplit 2 and on an unpack
failure (fewer than three segments) return `({}, text)`; otherwise load the
frontmatter — a YAML error propagates — and keep the result only if it is a
dict. -/
def _parse (yamlParse : List Char → Except String (Option YamlNode))
    (reg : Registry) (text : List Char) :
    Except String (List (List Char × Value) × List Char) :=
  let text := pyStrip text
  if pyStartsWith DELIMITER text = false then .ok ([], text)
  else
    match BOUNDARY_split text 2 with
    | [_, fm, content] =>
      (yaml_load yamlParse reg fm).map (fun root => (metadataOf root, content))
    | _ => .ok ([], text)

/-- `FrontmarkReader._parse_metadata`: lower-case each key; render and strip
the value of a formatted field before the `process_metadata` hook, pass the
value unchanged to the hook otherwise; build the output `OrderedDict` in
source order. -/
def _parse_metadata (formatted_fields : List (List Char))
    (render : List Char → List Char)
    (process_metadata : List Char → Value → Value)
    (meta : List (List Char × Value)) : List (List Char × Value) :=
  meta.foldl (fun output p =>
    let name := pyLower p.1
    if name ∈ formatted_fields then
      orderedDictInsert output name
        (process_metadata name (.vstr (pyStrip (render (valueStr p.2)))))
    else
      orderedDictInsert output name (process_metadata name p.2)) []

/-- `FrontmarkReader.read` (after the file contents have been materialized):
`metadata, content = self._parse(text)`;
`return self._render(content).strip(), self._parse_metadata(metadata)`. -/
def read (render : List Char → List Char)
    (yamlParse : List Char → Except String (Option YamlNode))
    (formatted_fields : List (List Char)) (parseLiteral : Bool)
    (process_metadata : List Char → Value → Value) (externals : Registry)
    (text : List Char) :
    Except String (List Char × List (List Char × Value)) :=
  let reg := loader_class render parseLiteral externals
  (_parse yamlParse reg text).map (fun mc =>
    (pyStrip (render mc.2), _parse_metadata formatted_fields render process_metadata mc.1))

/-! ### Settings normalization in `FrontmarkReader.__init__` -/

/-- The `MARKDOWN` settings dict: the enabled `extensions` sequence and the
keys of the `extension_configs` mapping (dict keys, hence without
duplicates), in iteration order. -/
structure MarkdownSettings where
  extensions : List String
  extension_configs : List String
deriving DecidableEq

/-- `FrontmarkReader.__init__`'s treatment of `settings['MARKDOWN']`: the two
`setdefault` calls ensure both keys exist (the structure already models
that); then every extension named in `extension_configs` but absent from
`extensions` is appended, and the mandatory meta extension is appended if
missing.  The returned value is the post-`__init__` state of the very
settings object the caller handed in — the loop mutates it in place. -/
def FrontmarkReader_init (s : MarkdownSettings) : MarkdownSettings :=
  let exts := s.extension_configs.foldl
    (fun es e => if e ∈ es then es else es ++ [e]) s.extensions
  let exts2 := if META_EXTENSION ∈ exts then exts else exts ++ [META_EXTENSION]
  { extensions := exts2, extension_configs := s.extension_configs }

/-! ### Lemmas: `str.lower` is idempotent (ASCII) -/

theorem toNat_ofNat_valid (n : Nat) (h : n.isValidChar) : (Char.ofNat n).toNat = n := by
  rw [Char.ofNat, dif_pos h]; rfl

theorem pyLowerChar_idem (c : Char) : pyLowerChar (pyLowerChar c) = pyLowerChar c := by
  unfold pyLowerChar
  split
  · next h =>
    have hv : (c.toNat + 32).isValidChar := by
      left
      have := h.2
      omega
    rw [if_neg]
    rw [toNat_ofNat_valid _ hv]
    have := h.1
    omega
  · rfl

theorem pyLower_idem (s : List Char) : pyLower (pyLower s) = pyLower s := by
  unfold pyLower
  rw [List.map_map]
  exact List.map_congr_left fun c _ => pyLowerChar_idem c

/-! ### Lemmas: ordered dict -/

theorem orderedDictInsert_nil (k : List Char) (v : Value) :
    orderedDictInsert [] k v = [(k, v)] := rfl

theorem orderedDictInsert_cons (p : List Char × Value) (m : List (List Char × Value))
    (k : List Char) (v : Value) :
    orderedDictInsert (p :: m) k v =
      if p.1 = k then (p.1, v) :: m else p :: orderedDictInsert m k v := rfl

theorem odLookup_nil (k : List Char) : odLookup [] k = none := rfl

theorem odLookup_cons (p : List Char × Value) (m : List (List Char × Value)) (k : List Char) :
    odLookup (p :: m) k = if p.1 = k then some p.2 else odLookup m k := rfl

theorem keys_orderedDictInsert (m : List (List Char × Value)) (k : List Char) (v : Value) :
    (orderedDictInsert m k v).map Prod.fst =
      if k ∈ m.map Prod.fst then m.map Prod.fst else m.map Prod.fst ++ [k] := by
  induction m with
  | nil =>
    rw [orderedDictInsert_nil, List.map_nil, if_neg (List.not_mem_nil k)]
    rfl
  | cons p m ih =>
    rw [orderedDictInsert_cons]
    by_cases hp : p.1 = k
    · subst hp
      simp
    · rw [if_neg hp]
      by_cases hk : k ∈ m.map Prod.fst
      · simp only [List.map_cons, ih, if_pos hk]
        rw [if_pos (List.mem_cons_of_mem _ hk)]
      · have hnk : ¬ k ∈ p.1 :: m.map Prod.fst := by
          simp only [List.mem_cons]
          rintro (h | h)
          · exact hp h.symm
          · exact hk h
        simp only [List.map_cons, ih, if_neg hk]
        rw [if_neg hnk]
        rfl

theorem odLookup_orderedDictInsert (m : List (List Char × Value)) (k k' : List Char)
    (v : Value) :
    odLookup (orderedDictInsert m k v) k' = if k' = k then some v else odLookup m k' := by
  induction m with
  | nil =>
    rw [orderedDictInsert_nil, odLookup_cons, odLookup_nil]
    by_cases h : k' = k
    · rw [if_pos h, if_pos h.symm]
    · rw [if_neg h, if_neg (fun hk => h hk.symm)]
  | cons p m ih =>
    rw [orderedDictInsert_cons]
    by_cases hp : p.1 = k
    · rw [if_pos hp, odLookup_cons, odLookup_cons]
      by_cases h : k' = k
      · rw [if_pos (hp.trans h.symm), if_pos h]
      · have hpk' : ¬ p.1 = k' := fun hk => h (hp.symm.trans hk).symm
        rw [if_neg hpk', if_neg hpk', if_neg h]
    · rw [if_neg hp, odLookup_cons, odLookup_cons, ih]
      by_cases h : p.1 = k'
      · have hkk : ¬ k' = k := fun he => hp (h.trans he)
        rw [if_pos h, if_pos h, if_neg hkk]
      · rw [if_neg h, if_neg h]

/-! ### Lemmas: `_parse_metadata` characterization -/

/-- The value `_parse_metadata` stores for one raw `(key, value)` pair. -/
def pmValue (formatted_fields : List (List Char)) (render : List Char → List Char)
    (process_metadata : List Char → Value → Value) (p : List Char × Value) : Value :=
  if pyLower p.1 ∈ formatted_fields then
    process_metadata (pyLower p.1) (.vstr (pyStrip (render (valueStr p.2))))
  else process_metadata (pyLower p.1) p.2

/-- The processed value of the last raw pair whose lowered key is `k`. -/
def lastVal (formatted_fields : List (List Char)) (render : List Char → List Char)
    (process_metadata : List Char → Value → Value) (k : List Char) :
    List (List Char × Value) → Option Value
  | [] => none
  | p :: l =>
    match lastVal formatted_fields render process_metadata k l with
    | some v => some v
    | none =>
      if pyLower p.1 = k then some (pmValue formatted_fields render process_metadata p)
      else none

/-- Keys in first-seen order, continuing from the already seen keys `ks`. -/
def firstSeenAux (ks : List (List Char)) (l : List (List Char)) : List (List Char) :=
  l.foldl (fun ks k => if k ∈ ks then ks else ks ++ [k]) ks

/-- Keys in first-seen order. -/
def firstSeen (l : List (List Char)) : List (List Char) := firstSeenAux [] l

theorem firstSeenAux_cons (ks : List (List Char)) (a : List Char) (l : List (List Char)) :
    firstSeenAux ks (a :: l) = firstSeenAux (if a ∈ ks then ks else ks ++ [a]) l := rfl

theorem parse_metadata_eq_foldl (ff : List (List Char)) (render : List Char → List Char)
    (hook : List Char → Value → Value) (meta : List (List Char × Value)) :
    _parse_metadata ff render hook meta =
      meta.foldl (fun output p => orderedDictInsert output (pyLower p.1)
        (pmValue ff render hook p)) [] := by
  unfold _parse_metadata
  congr 1
  funext output p
  by_cases h : pyLower p.1 ∈ ff <;> simp [pmValue, h]

theorem keys_pm_foldl (ff : List (List Char)) (render : List Char → List Char)
    (hook : List Char → Value → Value) (meta : List (List Char × Value)) :
    ∀ acc : List (List Char × Value),
      ((meta.foldl (fun output p => orderedDictInsert output (pyLower p.1)
          (pmValue ff render hook p)) acc).map Prod.fst) =
        firstSeenAux (acc.map Prod.fst) (meta.map (fun p => pyLower p.1)) := by
  induction meta with
  | nil => intro acc; simp [firstSeenAux]
  | cons p meta ih =>
    intro acc
    rw [List.foldl_cons, ih, keys_orderedDictInsert, List.map_cons, firstSeenAux_cons]

theorem lookup_pm_foldl (ff : List (List Char)) (render : List Char → List Char)
    (hook : List Char → Value → Value) (meta : List (List Char × Value)) (k : List Char) :
    ∀ acc : List (List Char × Value),
      odLookup (meta.foldl (fun output p => orderedDictInsert output (pyLower p.1)
          (pmValue ff render hook p)) acc) k =
        match lastVal ff render hook k meta with
        | some v => some v
        | none => odLookup acc k := by
  induction meta with
  | nil => intro acc; simp [lastVal]
  | cons p meta ih =>
    intro acc
    rw [List.foldl_cons, ih]
    rcases hl : lastVal ff render hook k meta with _ | v
    · simp only [lastVal, hl]
      rw [odLookup_orderedDictInsert]
      by_cases h : pyLower p.1 = k
      · rw [if_pos h, if_pos h.symm]
      · rw [if_neg h, if_neg (fun he => h he.symm)]
    · simp only [lastVal, hl]

theorem mem_firstSeenAux (l : List (List Char)) :
    ∀ (ks : List (List Char)) (x : List Char), x ∈ firstSeenAux ks l → x ∈ ks ∨ x ∈ l := by
  induction l with
  | nil => intro ks x h; exact Or.inl h
  | cons a l ih =>
    intro ks x h
    rw [firstSeenAux, List.foldl_cons, ← firstSeenAux] at h
    rcases ih _ _ h with h' | h'
    · by_cases ha : a ∈ ks
      · rw [if_pos ha] at h'; exact Or.inl h'
      · rw [if_neg ha, List.mem_append] at h'
        rcases h' with h' | h'
        · exact Or.inl h'
        · simp only [List.mem_singleton] at h'
          exact Or.inr (h' ▸ List.mem_cons_self a l)
    · exact Or.inr (List.mem_cons_of_mem _ h')

theorem nodup_firstSeenAux (l : List (List Char)) :
    ∀ ks : List (List Char), ks.Nodup → (firstSeenAux ks l).Nodup := by
  induction l with
  | nil => intro ks h; exact h
  | cons a l ih =>
    intro ks h
    rw [firstSeenAux, List.foldl_cons, ← firstSeenAux]
    by_cases ha : a ∈ ks
    · rw [if_pos ha]; exact ih ks h
    · rw [if_neg ha]
      refine ih _ ?_
      simp [List.nodup_append, h, ha]

/-! ### Lemmas: the boundary scanner -/

theorem bsa_nil (m : Nat) (ls : Bool) (acc : List Char) :
    boundarySplitAux m ls acc [] = [acc.reverse] := rfl

theorem bsa_match (m : Nat) (acc : List Char) (c r1 r2 : Char) (rest : List Char)
    (hm : m ≠ 0) (hb : boundaryMatch (c :: r1 :: r2 :: rest)) :
    boundarySplitAux m true acc (c :: r1 :: r2 :: rest) =
      acc.reverse :: boundarySplitAux (m - 1) false [] rest := by
  conv_lhs => unfold boundarySplitAux
  rw [if_pos ⟨hm, rfl, hb⟩]

theorem bsa_nomatch (m : Nat) (ls : Bool) (acc : List Char) (c : Char) (rest : List Char)
    (h : ¬(m ≠ 0 ∧ ls = true ∧ boundaryMatch (c :: rest))) :
    boundarySplitAux m ls acc (c :: rest) =
      boundarySplitAux m (c == '\n') (c :: acc) rest := by
  conv_lhs => unfold boundarySplitAux
  rw [if_neg h]

theorem cb_nil (ls : Bool) : countBoundary ls [] = 0 := rfl

theorem cb_match (c r1 r2 : Char) (rest : List Char)
    (hb : boundaryMatch (c :: r1 :: r2 :: rest)) :
    countBoundary true (c :: r1 :: r2 :: rest) = 1 + countBoundary false rest := by
  conv_lhs => unfold countBoundary
  rw [if_pos ⟨rfl, hb⟩]

theorem cb_nomatch (ls : Bool) (c : Char) (rest : List Char)
    (h : ¬(ls = true ∧ boundaryMatch (c :: rest))) :
    countBoundary ls (c :: rest) = countBoundary (c == '\n') rest := by
  conv_lhs => unfold countBoundary
  rw [if_neg h]

theorem boundaryMatch_short_one (c : Char) : ¬ boundaryMatch [c] := by
  rintro ⟨h1, _⟩
  simp [DELIMITER] at h1

theorem boundaryMatch_short_two (c d : Char) : ¬ boundaryMatch [c, d] := by
  rintro ⟨h1, _⟩
  simp [DELIMITER] at h1

theorem boundaryMatch_dashes {c r1 r2 : Char} {rest : List Char}
    (hb : boundaryMatch (c :: r1 :: r2 :: rest)) : c = '-' ∧ r1 = '-' ∧ r2 = '-' := by
  obtain ⟨h1, _⟩ := hb
  simpa [DELIMITER] using h1

theorem length_bsa : ∀ (n : Nat) (s : List Char), s.length ≤ n →
    ∀ (m : Nat) (ls : Bool) (acc : List Char),
      (boundarySplitAux m ls acc s).length = min (countBoundary ls s) m + 1 := by
  intro n
  induction n with
  | zero =>
    intro s hs m ls acc
    have hnil : s = [] := List.eq_nil_of_length_eq_zero (Nat.le_zero.mp hs)
    subst hnil
    rw [bsa_nil, cb_nil]
    simp
  | succ n ih =>
    intro s hs m ls acc
    match s with
    | [] =>
      rw [bsa_nil, cb_nil]
      simp
    | c :: rest =>
      by_cases hcond : m ≠ 0 ∧ ls = true ∧ boundaryMatch (c :: rest)
      · obtain ⟨hm, hls, hb⟩ := hcond
        subst hls
        rcases rest with _ | ⟨r1, rest1⟩
        · exact absurd hb (boundaryMatch_short_one c)
        rcases rest1 with _ | ⟨r2, rest2⟩
        · exact absurd hb (boundaryMatch_short_two c r1)
        have hlen : rest2.length ≤ n := by
          simp only [List.length_cons] at hs
          omega
        rw [bsa_match m acc c r1 r2 rest2 hm hb, cb_match c r1 r2 rest2 hb,
          List.length_cons, ih rest2 hlen (m - 1) false []]
        omega
      · have hlen : rest.length ≤ n := by
          simp only [List.length_cons] at hs
          omega
        rw [bsa_nomatch m ls acc c rest hcond, ih rest hlen m (c == '\n') (c :: acc)]
        by_cases hc2 : ls = true ∧ boundaryMatch (c :: rest)
        · have hm : m = 0 := by
            by_contra hm
            exact hcond ⟨hm, hc2⟩
          subst hm
          simp
        · rw [cb_nomatch ls c rest hc2]

theorem bsa_ne_nil (m : Nat) (ls : Bool) (acc : List Char) (s : List Char) :
    boundarySplitAux m ls acc s ≠ [] := by
  intro h
  have hl := length_bsa s.length s le_rfl m ls acc
  rw [h] at hl
  simp at hl

theorem joinDelim_cons2 (x y : List Char) (ys : List (List Char)) :
    joinDelim (x :: y :: ys) = x ++ DELIMITER ++ joinDelim (y :: ys) := rfl

theorem join_bsa : ∀ (n : Nat) (s : List Char), s.length ≤ n →
    ∀ (m : Nat) (ls : Bool) (acc : List Char),
      joinDelim (boundarySplitAux m ls acc s) = acc.reverse ++ s := by
  intro n
  induction n with
  | zero =>
    intro s hs m ls acc
    have hnil : s = [] := List.eq_nil_of_length_eq_zero (Nat.le_zero.mp hs)
    subst hnil
    rw [bsa_nil]
    show acc.reverse = acc.reverse ++ []
    simp
  | succ n ih =>
    intro s hs m ls acc
    match s with
    | [] =>
      rw [bsa_nil]
      show acc.reverse = acc.reverse ++ []
      simp
    | c :: rest =>
      by_cases hcond : m ≠ 0 ∧ ls = true ∧ boundaryMatch (c :: rest)
      · obtain ⟨hm, hls, hb⟩ := hcond
        subst hls
        rcases rest with _ | ⟨r1, rest1⟩
        · exact absurd hb (boundaryMatch_short_one c)
        rcases rest1 with _ | ⟨r2, rest2⟩
        · exact absurd hb (boundaryMatch_short_two c r1)
        have hlen : rest2.length ≤ n := by
          simp only [List.length_cons] at hs
          omega
        rw [bsa_match m acc c r1 r2 rest2 hm hb]
        obtain ⟨z, zs, hz⟩ : ∃ z zs, boundarySplitAux (m - 1) false [] rest2 = z :: zs := by
          rcases hbsa : boundarySplitAux (m - 1) false [] rest2 with _ | ⟨z, zs⟩
          · exact absurd hbsa (bsa_ne_nil (m - 1) false [] rest2)
          · exact ⟨z, zs, rfl⟩
        rw [hz, joinDelim_cons2, ← hz, ih rest2 hlen (m - 1) false []]
        obtain ⟨hc, h1, h2⟩ := boundaryMatch_dashes hb
        subst hc; subst h1; subst h2
        simp [DELIMITER]
      · have hlen : rest.length ≤ n := by
          simp only [List.length_cons] at hs
          omega
        rw [bsa_nomatch m ls acc c rest hcond, ih rest hlen m (c == '\n') (c :: acc)]
        simp

theorem BOUNDARY_split_length_of_two (text : List Char) (h : 2 ≤ countBoundary true text) :
    (BOUNDARY_split text 2).length = 3 := by
  rw [BOUNDARY_split, length_bsa text.length text le_rfl 2 true []]
  omega

theorem joinDelim_BOUNDARY_split (text : List Char) (m : Nat) :
    joinDelim (BOUNDARY_split text m) = text := by
  rw [BOUNDARY_split, join_bsa text.length text le_rfl m true []]
  rfl

/-! ### Lemmas: the `__init__` extension-list fold -/

theorem foldl_appendAbsent_eq :
    ∀ (l : List String) (es : List String), l.Nodup →
      l.foldl (fun es e => if e ∈ es then es else es ++ [e]) es
        = es ++ l.filter (fun e => decide (e ∉ es)) := by
  intro l
  induction l with
  | nil => intro es _; simp
  | cons a l ih =>
    intro es hnd
    rw [List.foldl_cons]
    by_cases ha : a ∈ es
    · rw [if_pos ha, ih es hnd.of_cons, List.filter_cons]
      simp [ha]
    · rw [if_neg ha, ih (es ++ [a]) hnd.of_cons]
      have hal : a ∉ l := (List.nodup_cons.mp hnd).1
      have hfil : l.filter (fun e => decide (e ∉ es ++ [a]))
          = l.filter (fun e => decide (e ∉ es)) := by
        apply List.filter_congr
        intro x hx
        have hxa : x ≠ a := fun hEq => hal (hEq ▸ hx)
        simp [List.mem_append, hxa]
      rw [hfil, List.filter_cons]
      simp [ha, List.append_assoc]

theorem foldl_appendAbsent_subset :
    ∀ (l es : List String), es ⊆ l.foldl (fun es e => if e ∈ es then es else es ++ [e]) es := by
  intro l
  induction l with
  | nil => intro es; exact fun _ h => h
  | cons a l ih =>
    intro es
    rw [List.foldl_cons]
    intro x hx
    refine ih _ ?_
    by_cases ha : a ∈ es
    · rw [if_pos ha]; exact hx
    · rw [if_neg ha]; exact List.mem_append_left _ hx

theorem mem_foldl_appendAbsent :
    ∀ (l es : List String) (e : String), e ∈ l →
      e ∈ l.foldl (fun es e => if e ∈ es then es else es ++ [e]) es := by
  intro l
  induction l with
  | nil => intro es e he; exact absurd he (List.not_mem_nil e)
  | cons a l ih =>
    intro es e he
    rw [List.foldl_cons]
    rcases List.mem_cons.mp he with he | he
    · subst he
      refine foldl_appendAbsent_subset l _ ?_
      by_cases ha : e ∈ es
      · rw [if_pos ha]; exact ha
      · rw [if_neg ha]; exact List.mem_append_right _ (List.mem_singleton_self e)
    · exact ih _ e he

theorem foldl_appendAbsent_noop :
    ∀ (l es : List String), (∀ e ∈ l, e ∈ es) →
      l.foldl (fun es e => if e ∈ es then es else es ++ [e]) es = es := by
  intro l
  induction l with
  | nil => intro es _; rfl
  | cons a l ih =>
    intro es h
    rw [List.foldl_cons, if_pos (h a (List.mem_cons_self a l))]
    exact ih es fun e he => h e (List.mem_cons_of_mem a he)

/-! ### Claim C1 -/

/-- Claim C1 (corrected): constructing the reader does append every extension
named only in `extension_configs` and the mandatory meta extension, producing
the effective configuration — but by mutating the caller-owned
`settings['MARKDOWN']` dict in place.  The post-construction settings keep the
`extension_configs` keys, their `extensions` list is exactly the original list
followed by the configs-only extensions and, if still missing, the meta
extension, and the normalization is idempotent (a second construction changes
nothing). -/
theorem C1_settings_normalization (s : MarkdownSettings)
    (h : s.extension_configs.Nodup) :
    (FrontmarkReader_init s).extension_configs = s.extension_configs
    ∧ (FrontmarkReader_init s).extensions =
        (if META_EXTENSION ∈ s.extensions ++ s.extension_configs.filter
              (fun e => decide (e ∉ s.extensions)) then
           s.extensions ++ s.extension_configs.filter (fun e => decide (e ∉ s.extensions))
         else s.extensions ++ s.extension_configs.filter
              (fun e => decide (e ∉ s.extensions)) ++ [META_EXTENSION])
    ∧ FrontmarkReader_init (FrontmarkReader_init s) = FrontmarkReader_init s := by
  have key : ∀ t : MarkdownSettings, (∀ e ∈ t.extension_configs, e ∈ t.extensions) →
      META_EXTENSION ∈ t.extensions → FrontmarkReader_init t = t := by
    intro t h1 h2
    simp only [FrontmarkReader_init]
    rw [foldl_appendAbsent_noop t.extension_configs t.extensions h1, if_pos h2]
  have hsub : ∀ e ∈ s.extension_configs, e ∈ (FrontmarkReader_init s).extensions := by
    intro e he
    have h1 := mem_foldl_appendAbsent s.extension_configs s.extensions e he
    simp only [FrontmarkReader_init]
    split
    · exact h1
    · exact List.mem_append_left _ h1
  have hmeta : META_EXTENSION ∈ (FrontmarkReader_init s).extensions := by
    simp only [FrontmarkReader_init]
    split
    · next hm => exact hm
    · exact List.mem_append_right _ (List.mem_singleton_self _)
  refine ⟨rfl, ?_, key _ hsub hmeta⟩
  simp only [FrontmarkReader_init]
  rw [foldl_appendAbsent_eq s.extension_configs s.extensions h]

/-- Witness for `C1_settings_normalization` at a concrete settings value. -/
theorem C1_settings_normalization_witness :
    (MarkdownSettings.mk ["markdown.extensions.toc"] ["markdown.extensions.codehilite"]
        |>.extension_configs.Nodup)
    ∧ (FrontmarkReader_init
        ⟨["markdown.extensions.toc"], ["markdown.extensions.codehilite"]⟩).extensions =
        ["markdown.extensions.toc", "markdown.extensions.codehilite",
          "markdown.extensions.meta"] := by
  refine ⟨by decide, ?_⟩
  have h := (C1_settings_normalization
    ⟨["markdown.extensions.toc"], ["markdown.extensions.codehilite"]⟩ (by decide)).2.1
  rw [h]
  decide

/-- Counterexample to claim C1 as stated: constructing the reader does not
leave the caller-owned settings object unchanged — here the caller's
`MARKDOWN` settings gain two extensions. -/
theorem C1_purity_counterexample :
    FrontmarkReader_init ⟨[], ["markdown.extensions.toc"]⟩
      ≠ ⟨[], ["markdown.extensions.toc"]⟩ := by
  decide

/-! ### Claims C4, C5, C2: the field post-processor -/

theorem parse_metadata_nil (ff : List (List Char)) (render : List Char → List Char)
    (hook : List Char → Value → Value) : _parse_metadata ff render hook [] = [] := rfl

theorem parse_metadata_singleton_formatted (ff : List (List Char))
    (render : List Char → List Char) (hook : List Char → Value → Value)
    (k s : List Char) (h : pyLower k ∈ ff) :
    _parse_metadata ff render hook [(k, .vstr s)]
      = [(pyLower k, hook (pyLower k) (.vstr (pyStrip (render s))))] := by
  simp only [_parse_metadata, List.foldl_cons, List.foldl_nil]
  rw [if_pos h]
  rfl

theorem parse_metadata_singleton_plain (ff : List (List Char))
    (render : List Char → List Char) (hook : List Char → Value → Value)
    (k : List Char) (v : Value) (h : pyLower k ∉ ff) :
    _parse_metadata ff render hook [(k, v)] = [(pyLower k, hook (pyLower k) v)] := by
  simp only [_parse_metadata, List.foldl_cons, List.foldl_nil]
  rw [if_neg h]
  rfl

/-- Claim C4 (confirmed): the keys of `_parse_metadata`'s output are exactly
the lowered source keys in first-seen order (hence unique and lowercase —
`str.lower` is idempotent), and looking any key up yields the processed value
of the last source pair whose lowered key matches, so a later collision
overwrites the value while the key keeps its first position. -/
theorem C4_parse_metadata_keys (ff : List (List Char)) (render : List Char → List Char)
    (hook : List Char → Value → Value) (meta : List (List Char × Value)) :
    ((_parse_metadata ff render hook meta).map Prod.fst
        = firstSeen (meta.map (fun p => pyLower p.1)))
    ∧ ((_parse_metadata ff render hook meta).map Prod.fst).Nodup
    ∧ (∀ p ∈ _parse_metadata ff render hook meta, p.1 = pyLower p.1)
    ∧ (∀ k, odLookup (_parse_metadata ff render hook meta) k
        = lastVal ff render hook k meta) := by
  have hkeys : (_parse_metadata ff render hook meta).map Prod.fst
      = firstSeen (meta.map (fun p => pyLower p.1)) := by
    rw [parse_metadata_eq_foldl]
    exact keys_pm_foldl ff render hook meta []
  refine ⟨hkeys, ?_, ?_, ?_⟩
  · rw [hkeys]
    exact nodup_firstSeenAux _ [] List.nodup_nil
  · intro p hp
    have h1 : p.1 ∈ (_parse_metadata ff render hook meta).map Prod.fst :=
      List.mem_map_of_mem Prod.fst hp
    rw [hkeys] at h1
    rcases mem_firstSeenAux _ [] _ h1 with h' | h'
    · exact absurd h' (List.not_mem_nil _)
    · obtain ⟨q, _, hqe⟩ := List.mem_map.mp h'
      rw [← hqe]
      exact (pyLower_idem q.1).symm
  · intro k
    rw [parse_metadata_eq_foldl, lookup_pm_foldl]
    rcases hl : lastVal ff render hook k meta with _ | v <;> rfl

/-- Witness for `C4_parse_metadata_keys`: duplicate keys `Title`/`title` — the
key `title` is stored once, lowercase, and holds the later value. -/
theorem C4_parse_metadata_keys_witness :
    ((String.toList "title", Value.vstr (String.toList "y")).1
        = pyLower (String.toList "title", Value.vstr (String.toList "y")).1)
    ∧ (odLookup (_parse_metadata [] (fun s => s) (fun _ v => v)
          [(String.toList "Title", Value.vstr (String.toList "x")),
           (String.toList "title", Value.vstr (String.toList "y"))])
          (String.toList "title")
        = lastVal [] (fun s => s) (fun _ v => v) (String.toList "title")
          [(String.toList "Title", Value.vstr (String.toList "x")),
           (String.toList "title", Value.vstr (String.toList "y"))])
    ∧ odLookup (_parse_metadata [] (fun s => s) (fun _ v => v)
          [(String.toList "Title", Value.vstr (String.toList "x")),
           (String.toList "title", Value.vstr (String.toList "y"))])
          (String.toList "title")
        = some (Value.vstr (String.toList "y")) := by
  refine ⟨(C4_parse_metadata_keys [] (fun s => s) (fun _ v => v)
      [(String.toList "Title", Value.vstr (String.toList "x")),
       (String.toList "title", Value.vstr (String.toList "y"))]).2.2.1
      (String.toList "title", Value.vstr (String.toList "y")) (by decide),
    (C4_parse_metadata_keys [] (fun s => s) (fun _ v => v)
      [(String.toList "Title", Value.vstr (String.toList "x")),
       (String.toList "title", Value.vstr (String.toList "y"))]).2.2.2
      (String.toList "title"), by decide⟩

/-- Claim C5 (confirmed): a raw pair whose lowered key is in
`FORMATTED_FIELDS` is stored as `hook(strip(render(value)))`; any other pair
is stored as `hook(value)` with the value reaching the hook unchanged. -/
theorem C5_formatted_field_policy (ff : List (List Char)) (render : List Char → List Char)
    (hook : List Char → Value → Value) (k : List Char) (v : Value) (s : List Char) :
    (pyLower k ∈ ff → v = .vstr s →
      _parse_metadata ff render hook [(k, v)]
        = [(pyLower k, hook (pyLower k) (.vstr (pyStrip (render s))))])
    ∧ (pyLower k ∉ ff →
      _parse_metadata ff render hook [(k, v)] = [(pyLower k, hook (pyLower k) v)]) := by
  constructor
  · intro h1 h2
    subst h2
    exact parse_metadata_singleton_formatted ff render hook k s h1
  · intro h1
    exact parse_metadata_singleton_plain ff render hook k v h1

/-- A marker renderer for the concrete witnesses: wraps its input so that
each render application is visible in the output. -/
def markRender (s : List Char) : List Char := 'R' :: '(' :: (s ++ [')'])

/-- Witness for `C5_formatted_field_policy`: the field `Summary` with raw
value `*hi*` is rendered when `summary` is a formatted field, and the raw
string `*hi*` reaches the hook untouched when it is not. -/
theorem C5_formatted_field_policy_witness :
    (_parse_metadata [String.toList "summary"] markRender (fun _ v => v)
        [(String.toList "Summary", Value.vstr (String.toList "*hi*"))]
      = [(pyLower (String.toList "Summary"),
          (fun _ v => v) (pyLower (String.toList "Summary"))
            (Value.vstr (pyStrip (markRender (String.toList "*hi*")))))])
    ∧ (_parse_metadata [String.toList "summary"] markRender (fun _ v => v)
        [(String.toList "other", Value.vstr (String.toList "*hi*"))]
      = [(pyLower (String.toList "other"),
          (fun _ v => v) (pyLower (String.toList "other"))
            (Value.vstr (String.toList "*hi*")))]) :=
  ⟨(C5_formatted_field_policy [String.toList "summary"] markRender (fun _ v => v)
      (String.toList "Summary") (Value.vstr (String.toList "*hi*"))
      (String.toList "*hi*")).1 (by decide) rfl,
    (C5_formatted_field_policy [String.toList "summary"] markRender (fun _ v => v)
      (String.toList "other") (Value.vstr (String.toList "*hi*"))
      (String.toList "*hi*")).2 (by decide)⟩

/-! ### Lemmas: constructor dispatch -/

theorem loader_class_true_eq (render : List Char → List Char) :
    loader_class render true [] =
      [("!md", yaml_markdown_constructor render),
       (STR_TAG, yaml_multiline_as_markdown_constructor render)] := rfl

theorem loader_class_false_eq (render : List Char → List Char) :
    loader_class render false [] = [("!md", yaml_markdown_constructor render)] := rfl

theorem lookup_loader_md (render : List Char → List Char) (pl : Bool) :
    lookupConstructor (loader_class render pl []) "!md"
      = some (yaml_markdown_constructor render) := by
  cases pl <;> rfl

theorem lookup_loader_str (render : List Char → List Char) :
    lookupConstructor (loader_class render true []) STR_TAG
      = some (yaml_multiline_as_markdown_constructor render) := rfl

theorem lookup_loader_str_off (render : List Char → List Char) :
    lookupConstructor (loader_class render false []) STR_TAG = none := rfl

theorem foldl_addConstructor (l : Registry) : ∀ reg : Registry,
    l.foldl (fun r p => addConstructor r p.1 p.2) reg = reg ++ l := by
  induction l with
  | nil => intro reg; simp
  | cons a l ih =>
    intro reg
    rw [List.foldl_cons, ih (addConstructor reg a.1 a.2)]
    simp [addConstructor]

theorem lookupConstructor_append_last (reg : Registry) (tag : String) (h : Handler) :
    lookupConstructor (reg ++ [(tag, h)]) tag = some h := by
  unfold lookupConstructor
  rw [List.reverse_append]
  simp [List.find?]

/-! ### Claim C6 -/

/-- Claim C6 (confirmed): with the default per-call loader, a scalar tagged
`!md` is rendered and stripped whatever `FRONTMARK_PARSE_LITERAL` is; a plain
string-tagged scalar is rendered and stripped exactly when the option is
enabled and the node was authored in literal block style, and is returned
verbatim otherwise. -/
theorem C6_tag_rendering_policy (render : List Char → List Char) (pl : Bool)
    (style : Option Char) (raw : List Char) :
    constructNode (loader_class render pl []) (.scalar "!md" style raw)
        = .vstr (pyStrip (render raw))
    ∧ constructNode (loader_class render true []) (.scalar STR_TAG (some '|') raw)
        = .vstr (pyStrip (render raw))
    ∧ (style ≠ some '|' →
        constructNode (loader_class render true []) (.scalar STR_TAG style raw)
          = .vstr raw)
    ∧ constructNode (loader_class render false []) (.scalar STR_TAG style raw)
        = .vstr raw := by
  refine ⟨?_, ?_, ?_, ?_⟩
  · simp only [constructNode, lookup_loader_md render pl]
    rfl
  · simp only [constructNode, lookup_loader_str render]
    rfl
  · intro hst
    simp only [constructNode, lookup_loader_str render]
    simp [yaml_multiline_as_markdown_constructor, nodeStyle, construct_scalar, hst]
  · simp only [constructNode, lookup_loader_str_off render]

/-- Witness for `C6_tag_rendering_policy` at concrete inputs. -/
theorem C6_tag_rendering_policy_witness :
    constructNode (loader_class markRender false [])
        (.scalar "!md" none (String.toList "*hi*"))
      = .vstr (pyStrip (markRender (String.toList "*hi*")))
    ∧ constructNode (loader_class markRender true [])
        (.scalar STR_TAG (some '|') (String.toList "*hi*"))
      = .vstr (pyStrip (markRender (String.toList "*hi*")))
    ∧ constructNode (loader_class markRender true [])
        (.scalar STR_TAG none (String.toList "*hi*")) = .vstr (String.toList "*hi*")
    ∧ constructNode (loader_class markRender false [])
        (.scalar STR_TAG none (String.toList "*hi*")) = .vstr (String.toList "*hi*") := by
  obtain ⟨h1, h2, h3, h4⟩ :=
    C6_tag_rendering_policy markRender false none (String.toList "*hi*")
  exact ⟨h1, h2, h3 (by decide), h4⟩

/-! ### Claim C9 -/

/-- Claim C9 (confirmed): the per-call loader applies externally contributed
pairs after the two built-in defaults, and for any tag the last registered
handler — here one appended at the very end, possibly re-registering `!md` or
the string tag — is the one the dispatch finds and invokes on nodes carrying
that tag. -/
theorem C9_last_registration_wins (render : List Char → List Char) (pl : Bool)
    (externals : Registry) (tag : String) (h : Handler) (style : Option Char)
    (v : List Char) :
    lookupConstructor (loader_class render pl (externals ++ [(tag, h)])) tag = some h
    ∧ constructNode (loader_class render pl (externals ++ [(tag, h)]))
        (.scalar tag style v) = h (.scalar tag style v) := by
  have hl : loader_class render pl (externals ++ [(tag, h)])
      = loader_class render pl [] ++ externals ++ [(tag, h)] := by
    simp only [loader_class, List.foldl_nil]
    rw [foldl_addConstructor, List.append_assoc]
  constructor
  · rw [hl]
    exact lookupConstructor_append_last _ tag h
  · simp only [constructNode]
    rw [hl, lookupConstructor_append_last]

/-! ### Claim C2 -/

/-- Claim C2 (corrected): the render function is not always applied at most
once.  For a field that is both named in `FORMATTED_FIELDS` and authored as a
literal block-style scalar with literal parsing enabled, the YAML constructor
renders the scalar once and `_parse_metadata` renders the constructed value
again: the stored value is `hook(strip(render(strip(render(raw)))))` — the
fragment passes through the renderer exactly twice. -/
theorem C2_formatted_literal_double_render (render : List Char → List Char)
    (hook : List Char → Value → Value) (ff : List (List Char)) (k raw : List Char)
    (h : pyLower k ∈ ff) :
    _parse_metadata ff render hook
        [(k, constructNode (loader_class render true [])
            (.scalar STR_TAG (some '|') raw))]
      = [(pyLower k,
          hook (pyLower k) (.vstr (pyStrip (render (pyStrip (render raw))))))] := by
  have hcn : constructNode (loader_class render true []) (.scalar STR_TAG (some '|') raw)
      = .vstr (pyStrip (render raw)) := by
    simp only [constructNode, lookup_loader_str render]
    rfl
  rw [hcn, parse_metadata_singleton_formatted ff render hook k _ h]

/-- Witness for `C2_formatted_literal_double_render` at a concrete document:
with the marker renderer the stored value is the doubly wrapped
`R(R(*hi*))`. -/
theorem C2_formatted_literal_double_render_witness :
    _parse_metadata [String.toList "summary"] markRender (fun _ v => v)
        [(String.toList "summary",
          constructNode (loader_class markRender true [])
            (.scalar STR_TAG (some '|') (String.toList "*hi*")))]
      = [(pyLower (String.toList "summary"),
          (fun _ v => v) (pyLower (String.toList "summary"))
            (Value.vstr (pyStrip (markRender
              (pyStrip (markRender (String.toList "*hi*")))))))] :=
  C2_formatted_literal_double_render markRender (fun _ v => v)
    [String.toList "summary"] (String.toList "summary") (String.toList "*hi*")
    (by decide)

/-- Counterexample to claim C2 as stated: for the field `summary`, listed in
`FORMATTED_FIELDS` and authored as a `|` literal block scalar with literal
parsing enabled, the stored value is not the once-rendered
`strip(render("*hi*"))` (with the marker renderer it is `R(R(*hi*))`, not
`R(*hi*)`). -/
theorem C2_single_render_counterexample :
    _parse_metadata [String.toList "summary"] markRender (fun _ v => v)
        [(String.toList "summary",
          constructNode (loader_class markRender true [])
            (.scalar STR_TAG (some '|') (String.toList "*hi*")))]
      ≠ [(String.toList "summary",
          Value.vstr (pyStrip (markRender (String.toList "*hi*"))))] := by
  decide

/-! ### Claims C3, C7, C8, C10: the splitter and the load pipeline -/

theorem parse_with_delim (yamlParse : List Char → Except String (Option YamlNode))
    (reg : Registry) (text s0 fm content : List Char)
    (hstart : pyStartsWith DELIMITER (pyStrip text) = true)
    (hsplit : BOUNDARY_split (pyStrip text) 2 = [s0, fm, content]) :
    _parse yamlParse reg text
      = (yaml_load yamlParse reg fm).map (fun root => (metadataOf root, content)) := by
  simp only [_parse]
  rw [if_neg (fun hc => absurd (hstart.symm.trans hc) (by decide)), hsplit]

/-- Claim C3 (confirmed): when the trimmed text does not start with `---`, or
starts with it but the boundary split does not produce exactly three
segments, `_parse` returns the empty metadata with the whole trimmed text as
body without raising, and `read` returns the rendered (and stripped) trimmed
text with an empty metadata mapping. -/
theorem C3_no_frontmatter_fallback (yamlParse : List Char → Except String (Option YamlNode))
    (reg : Registry) (render : List Char → List Char) (ff : List (List Char)) (pl : Bool)
    (hook : List Char → Value → Value) (externals : Registry) (text : List Char) :
    (pyStartsWith DELIMITER (pyStrip text) = false →
      _parse yamlParse reg text = .ok ([], pyStrip text)
      ∧ read render yamlParse ff pl hook externals text
          = .ok (pyStrip (render (pyStrip text)), []))
    ∧ (pyStartsWith DELIMITER (pyStrip text) = true →
      (BOUNDARY_split (pyStrip text) 2).length ≠ 3 →
      _parse yamlParse reg text = .ok ([], pyStrip text)
      ∧ read render yamlParse ff pl hook externals text
          = .ok (pyStrip (render (pyStrip text)), [])) := by
  constructor
  · intro h
    have hp : ∀ reg' : Registry, _parse yamlParse reg' text = .ok ([], pyStrip text) := by
      intro reg'
      simp only [_parse]
      rw [if_pos h]
    refine ⟨hp reg, ?_⟩
    simp only [read]
    rw [hp (loader_class render pl externals)]
    rfl
  · intro h hlen
    have hp : ∀ reg' : Registry, _parse yamlParse reg' text = .ok ([], pyStrip text) := by
      intro reg'
      simp only [_parse]
      rw [if_neg (fun hc => absurd (h.symm.trans hc) (by decide))]
      rcases hsp : BOUNDARY_split (pyStrip text) 2 with _ | ⟨a, _ | ⟨b, _ | ⟨c, l⟩⟩⟩
      · rfl
      · rfl
      · rfl
      · rcases l with _ | ⟨d, l⟩
        · exfalso
          rw [hsp] at hlen
          simp at hlen
        · rfl
    refine ⟨hp reg, ?_⟩
    simp only [read]
    rw [hp (loader_class render pl externals)]
    rfl

/-- Witness for `C3_no_frontmatter_fallback`: a plain text without delimiter,
and a text opening with a single delimiter line (two-way split). -/
theorem C3_no_frontmatter_fallback_witness :
    (_parse (fun _ => .ok none) [] (String.toList "hello")
        = .ok ([], pyStrip (String.toList "hello"))
      ∧ read markRender (fun _ => .ok none) [] true (fun _ v => v) []
          (String.toList "hello")
        = .ok (pyStrip (markRender (pyStrip (String.toList "hello"))), []))
    ∧ (_parse (fun _ => .ok none) [] (String.toList "---\nabc")
        = .ok ([], pyStrip (String.toList "---\nabc"))
      ∧ read markRender (fun _ => .ok none) [] true (fun _ v => v) []
          (String.toList "---\nabc")
        = .ok (pyStrip (markRender (pyStrip (String.toList "---\nabc"))), [])) :=
  ⟨(C3_no_frontmatter_fallback (fun _ => .ok none) [] markRender [] true (fun _ v => v) []
      (String.toList "hello")).1 (by decide),
    (C3_no_frontmatter_fallback (fun _ => .ok none) [] markRender [] true (fun _ v => v) []
      (String.toList "---\nabc")).2 (by decide) (by decide)⟩

/-- Claim C7 (confirmed): when the text has a frontmatter block (leading
delimiter, three-way split) and the YAML parser fails on the block, the error
propagates out of `_parse` and out of `read`; no fallback to empty metadata
happens. -/
theorem C7_yaml_error_propagates (render : List Char → List Char)
    (yamlParse : List Char → Except String (Option YamlNode)) (ff : List (List Char))
    (pl : Bool) (hook : List Char → Value → Value) (externals : Registry)
    (text s0 fm content : List Char) (e : String)
    (hstart : pyStartsWith DELIMITER (pyStrip text) = true)
    (hsplit : BOUNDARY_split (pyStrip text) 2 = [s0, fm, content])
    (herr : yamlParse fm = .error e) :
    (∀ reg : Registry, _parse yamlParse reg text = .error e)
    ∧ read render yamlParse ff pl hook externals text = .error e := by
  have hp : ∀ reg : Registry, _parse yamlParse reg text = .error e := by
    intro reg
    rw [parse_with_delim yamlParse reg text s0 fm content hstart hsplit]
    simp only [yaml_load]
    rw [herr]
    rfl
  refine ⟨hp, ?_⟩
  simp only [read]
  rw [hp (loader_class render pl externals)]
  rfl

/-- Witness for `C7_yaml_error_propagates` on a concrete malformed block. -/
theorem C7_yaml_error_propagates_witness :
    _parse (fun _ => .error "syntax") [] (String.toList "---\n:\n---\nbody")
        = .error "syntax"
    ∧ read markRender (fun _ => .error "syntax") [] true (fun _ v => v) []
        (String.toList "---\n:\n---\nbody") = .error "syntax" :=
  ⟨(C7_yaml_error_propagates markRender (fun _ => .error "syntax") [] true (fun _ v => v)
      [] (String.toList "---\n:\n---\nbody") (String.toList "") (String.toList "\n:\n")
      (String.toList "\nbody") "syntax" (by decide) (by decide) rfl).1 [],
    (C7_yaml_error_propagates markRender (fun _ => .error "syntax") [] true (fun _ v => v)
      [] (String.toList "---\n:\n---\nbody") (String.toList "") (String.toList "\n:\n")
      (String.toList "\nbody") "syntax" (by decide) (by decide) rfl).2⟩

/-- Claim C8 (confirmed): if the frontmatter block loads successfully but its
root value is not a mapping (a scalar, a sequence, or `None` for an empty
block), `_parse` returns the empty metadata mapping — never a partial one —
and the third split segment is still returned as body and rendered by
`read`. -/
theorem C8_non_mapping_metadata (render : List Char → List Char)
    (yamlParse : List Char → Except String (Option YamlNode)) (ff : List (List Char))
    (pl : Bool) (hook : List Char → Value → Value) (externals : Registry)
    (text s0 fm content : List Char) (root : Option YamlNode)
    (hstart : pyStartsWith DELIMITER (pyStrip text) = true)
    (hsplit : BOUNDARY_split (pyStrip text) 2 = [s0, fm, content])
    (hok : yamlParse fm = .ok root)
    (hnm : ∀ pairs, root.map (constructNode (loader_class render pl externals))
        ≠ some (.vmap pairs)) :
    _parse yamlParse (loader_class render pl externals) text = .ok ([], content)
    ∧ read render yamlParse ff pl hook externals text
        = .ok (pyStrip (render content), []) := by
  have hm0 : metadataOf (root.map (constructNode (loader_class render pl externals))) = [] := by
    rcases root with _ | n
    · rfl
    · rcases hv : constructNode (loader_class render pl externals) n with s | vs | prs
      · rw [Option.map_some', hv]
        rfl
      · rw [Option.map_some', hv]
        rfl
      · refine absurd ?_ (hnm prs)
        rw [Option.map_some', hv]
  have hp : _parse yamlParse (loader_class render pl externals) text = .ok ([], content) := by
    rw [parse_with_delim yamlParse (loader_class render pl externals) text s0 fm content
      hstart hsplit]
    simp only [yaml_load]
    rw [hok]
    simp only [Except.map]
    rw [hm0]
  refine ⟨hp, ?_⟩
  simp only [read]
  rw [hp]
  rfl

/-- Witness for `C8_non_mapping_metadata`: the block loads to a bare string
scalar; the metadata is empty and the body is still rendered. -/
theorem C8_non_mapping_metadata_witness :
    _parse (fun _ => .ok (some (.scalar STR_TAG none (String.toList "hello"))))
        (loader_class markRender false []) (String.toList "---\nhello\n---\nbody")
      = .ok ([], String.toList "\nbody")
    ∧ read markRender (fun _ => .ok (some (.scalar STR_TAG none (String.toList "hello"))))
        [] false (fun _ v => v) [] (String.toList "---\nhello\n---\nbody")
      = .ok (pyStrip (markRender (String.toList "\nbody")), []) :=
  C8_non_mapping_metadata markRender
    (fun _ => .ok (some (.scalar STR_TAG none (String.toList "hello")))) [] false
    (fun _ v => v) [] (String.toList "---\nhello\n---\nbody") (String.toList "")
    (String.toList "\nhello\n") (String.toList "\nbody")
    (some (.scalar STR_TAG none (String.toList "hello"))) (by decide) (by decide) rfl
    (fun pairs h => by
      rw [Option.map_some'] at h
      have hcn : constructNode (loader_class markRender false [])
          (.scalar STR_TAG none (String.toList "hello"))
          = Value.vstr (String.toList "hello") := by decide
      rw [hcn] at h
      exact Value.noConfusion (Option.some.inj h))

/-- Claim C10 (confirmed): for a trimmed text that starts with the delimiter
and contains at least two `---` delimiter lines, the maxsplit-2 split always
yields exactly three segments whose delimiter-joined concatenation is the
original text (so any third or later delimiter line stays verbatim inside
the body segment), and `_parse` proceeds to load the frontmatter segment —
the unpack-failure fallback branch is not taken. -/
theorem C10_split_always_succeeds (text : List Char) (h0 : pyStrip text = text)
    (h1 : pyStartsWith DELIMITER text = true) (h2 : 2 ≤ countBoundary true text) :
    ∃ s0 fm content, BOUNDARY_split text 2 = [s0, fm, content]
      ∧ text = s0 ++ DELIMITER ++ fm ++ DELIMITER ++ content
      ∧ ∀ (yamlParse : List Char → Except String (Option YamlNode)) (reg : Registry),
          _parse yamlParse reg text
            = (yaml_load yamlParse reg fm).map (fun root => (metadataOf root, content)) := by
  have hlen := BOUNDARY_split_length_of_two text h2
  rcases hsp : BOUNDARY_split text 2 with _ | ⟨a, _ | ⟨b, _ | ⟨c, l⟩⟩⟩
  · rw [hsp] at hlen
    simp at hlen
  · rw [hsp] at hlen
    simp at hlen
  · rw [hsp] at hlen
    simp at hlen
  · rcases l with _ | ⟨d, l⟩
    · refine ⟨a, b, c, rfl, ?_, ?_⟩
      · have hj := joinDelim_BOUNDARY_split text 2
        rw [hsp, joinDelim_cons2, joinDelim_cons2] at hj
        rw [← hj]
        show a ++ DELIMITER ++ (b ++ DELIMITER ++ c) = a ++ DELIMITER ++ b ++ DELIMITER ++ c
        simp [List.append_assoc]
      · intro yamlParse reg
        refine parse_with_delim yamlParse reg text a b c ?_ ?_
        · rw [h0]
          exact h1
        · rw [h0]
          exact hsp
    · rw [hsp] at hlen
      simp at hlen

/-- Witness for `C10_split_always_succeeds`: a document with three delimiter
lines — the third stays in the body. -/
theorem C10_split_always_succeeds_witness :
    ∃ s0 fm content,
      BOUNDARY_split (String.toList "---\na: 1\n---\nhello\n---\nrest") 2
          = [s0, fm, content]
        ∧ String.toList "---\na: 1\n---\nhello\n---\nrest"
            = s0 ++ DELIMITER ++ fm ++ DELIMITER ++ content
        ∧ ∀ (yamlParse : List Char → Except String (Option YamlNode)) (reg : Registry),
            _parse yamlParse reg (String.toList "---\na: 1\n---\nhello\n---\nrest")
              = (yaml_load yamlParse reg fm).map
                  (fun root => (metadataOf root, content)) :=
  C10_split_always_succeeds (String.toList "---\na: 1\n---\nhello\n---\nrest")
    (by decide) (by decide) (by decide)

end Frontmark
